import Mathlib

/-!
Verification of the record-aggregation and diff-highlighting engine of
`tools/nightly/generate_nightly_perf_excel.py`.

The engine manipulates records parsed from JSON files: each record is a
Python `dict` mapping string field names to scalar values (null, bool,
int, float, string).  We embed the scalar values, the dictionary
operations used by the engine (`get`, `setdefault`, item assignment),
and every function of the engine that the claims mention, translated
directly from the Python source.  Python `float` is idealised as an
exact value: NaN, a signed infinity, or a rational; arithmetic on the
rational part is exact rather than IEEE-rounded, which is adequate for
the comparisons the engine performs.
-/

/-- A Python float as the engine observes it: NaN, a signed infinity
(`inf true` is `-inf`), or a finite value idealised as a rational. -/
inductive PyFloat : Type
  | nan : PyFloat
  | inf (neg : Bool) : PyFloat
  | fin (q : ℚ) : PyFloat
deriving DecidableEq

namespace PyFloat

/-- `x != x` in Python holds exactly for NaN. -/
def isNan : PyFloat → Bool
  | .nan => true
  | _ => false

/-- Python float subtraction (`a - b`), idealised: exact on finite
values, with the usual NaN/infinity propagation (`inf - inf = nan`). -/
def sub : PyFloat → PyFloat → PyFloat
  | .nan, _ => .nan
  | _, .nan => .nan
  | .inf s, .inf t => if s = t then .nan else .inf s
  | .inf s, .fin _ => .inf s
  | .fin _, .inf s => .inf (!s)
  | .fin a, .fin b => .fin (a - b)

/-- Python `abs` on floats. -/
def abs : PyFloat → PyFloat
  | .nan => .nan
  | .inf _ => .inf false
  | .fin q => .fin |q|

/-- Python `x > 1e-9`: false when `x` is NaN, true for `+inf`. -/
def gtEps : PyFloat → Bool
  | .nan => false
  | .inf neg => !neg
  | .fin q => decide ((1 : ℚ) / 1000000000 < q)

end PyFloat

/-- A scalar value as stored in a record: the JSON scalars the engine
manipulates (`null` is Python `None`). -/
inductive Value : Type
  | null : Value
  | bool (b : Bool) : Value
  | int (n : ℤ) : Value
  | float (f : PyFloat) : Value
  | str (s : String) : Value
deriving DecidableEq

namespace Value

/-- Canonical equality key for Python `==` on the scalar values above:
`None` equals only `None`; booleans, ints and finite floats compare by
exact numeric value (`True == 1 == 1.0`); infinities compare by sign;
NaN equals nothing (key `none`); strings equal only equal strings. -/
inductive EqKey : Type
  | nullk : EqKey
  | num (q : ℚ) : EqKey
  | pinf : EqKey
  | ninf : EqKey
  | strv (s : String) : EqKey
deriving DecidableEq

/-- The equality key of a value; `none` for NaN, which Python `==`
makes equal to nothing, itself included. -/
def eqKey : Value → Option EqKey
  | .null => some .nullk
  | .bool b => some (.num (if b then 1 else 0))
  | .int n => some (.num (n : ℚ))
  | .float .nan => none
  | .float (.inf neg) => some (if neg then .ninf else .pinf)
  | .float (.fin q) => some (.num q)
  | .str s => some (.strv s)

/-- Model of Python `a == b` on the scalar values the engine stores. -/
def pyEq (a b : Value) : Bool :=
  match eqKey a, eqKey b with
  | some ka, some kb => ka = kb
  | _, _ => false

theorem pyEq_symm (a b : Value) : pyEq a b = pyEq b a := by
  unfold pyEq
  cases eqKey a <;> cases eqKey b <;> simp [eq_comm]

theorem pyEq_trans {a b c : Value} (hab : pyEq a b = true)
    (hbc : pyEq b c = true) : pyEq a c = true := by
  unfold pyEq at *
  cases ha : eqKey a <;> cases hb : eqKey b <;> cases hc : eqKey c <;>
    simp_all

end Value

/-- Source: `_values_differ(a, b)`.  Returns `True` when two cell
values are considered different.  The float branch mirrors the source's
`a != a` NaN tests; the final line is Python `a != b`. -/
def values_differ (a b : Value) : Bool :=
  match a, b with
  | .null, .null => false
  | .null, _ => true
  | _, .null => true
  | .float x, .float y =>
    if x.isNan && y.isNan then false
    else if x.isNan || y.isNan then true
    else (PyFloat.sub x y).abs.gtEps
  | a, b => !(Value.pyEq a b)

/-- A record: a Python dict from field names to scalar values, as an
association list with the dict's key order and unique keys. -/
abbrev Record : Type := List (String × Value)

namespace Record

/-- Python `r[k]` lookup outcome: `dict.get` without a default returns
`None` when the key is absent, which `pget` below reproduces. -/
def rget : Record → String → Option Value
  | [], _ => none
  | (k', v) :: rest, k => if k' = k then some v else rget rest k

/-- Python `r[k] = v`: replace in place when the key exists (keeping
its position), append otherwise. -/
def rset : Record → String → Value → Record
  | [], k, v => [(k, v)]
  | (k', v') :: rest, k, v =>
    if k' = k then (k, v) :: rest else (k', v') :: rset rest k v

/-- Python `r.setdefault(k, v)`: insert `v` (at the end) only when the
key is absent. -/
def setdefault (r : Record) (k : String) (v : Value) : Record :=
  if (rget r k).isSome then r else r ++ [(k, v)]

/-- Python `r.get(k)`: `None` both when the key is absent and when it
is present with value `None`. -/
def pget (r : Record) (k : String) : Value :=
  match rget r k with
  | some v => v
  | none => .null

theorem rget_rset_self (r : Record) (k : String) (v : Value) :
    rget (rset r k v) k = some v := by
  induction r with
  | nil => simp [rget, rset]
  | cons p rest ih =>
    obtain ⟨k', v'⟩ := p
    by_cases h : k' = k <;> simp [rget, rset, h, ih]

theorem rget_rset_ne (r : Record) {k k' : String} (v : Value)
    (h : k' ≠ k) : rget (rset r k v) k' = rget r k' := by
  induction r with
  | nil => simp [rget, rset, Ne.symm h]
  | cons p rest ih =>
    obtain ⟨k₀, v₀⟩ := p
    by_cases h₀ : k₀ = k
    · subst h₀
      simp [rget, rset, Ne.symm h]
    · by_cases h₁ : k₀ = k'
      · subst h₁
        simp [rget, rset, h₀]
      · simp [rget, rset, h₀, h₁, ih]

theorem rget_setdefault_present (r : Record) (k : String) (v : Value)
    (h : (rget r k).isSome) : setdefault r k v = r := by
  simp [setdefault, h]

end Record

theorem pyFloat_abs_sub_comm (x y : PyFloat) :
    (PyFloat.sub x y).abs = (PyFloat.sub y x).abs := by
  cases x <;> cases y <;>
    simp [PyFloat.sub, PyFloat.abs, abs_sub_comm]
  case inf.inf s t =>
    rcases s <;> rcases t <;> simp

/-- The claim's version of the cell-difference predicate: the epsilon
tolerance applies whenever BOTH values are numeric, an integer counted
as numeric alongside floats.  Modelled from the claim's words, for
comparison with `values_differ` above. -/
def numericVal : Value → Option PyFloat
  | .int n => some (.fin (n : ℚ))
  | .float f => some f
  | _ => none

/-- The claimed difference predicate (spec wording): exactly one side
null; or both numeric with absolute difference beyond 1e-9 (two NaNs
equal); otherwise plain inequality. -/
def values_differ_claimed (a b : Value) : Bool :=
  match a, b with
  | .null, .null => false
  | .null, _ => true
  | _, .null => true
  | a, b =>
    match numericVal a, numericVal b with
    | some x, some y =>
      if x.isNan && y.isNan then false
      else if x.isNan || y.isNan then true
      else (PyFloat.sub x y).abs.gtEps
    | _, _ => !(Value.pyEq a b)

/-- C1 counterexample: the integer `0` paired with the float `1e-10`
has absolute difference at most `1e-9`, so the claim judges the pair
not different; the code's `isinstance(a, float) and isinstance(b,
float)` test fails for the int/float pair, so the code falls through to
plain `a != b` and judges the pair different. -/
theorem values_differ_int_float_counterexample :
    values_differ (.int 0) (.float (.fin ((1 : ℚ) / 10000000000))) = true ∧
      values_differ_claimed (.int 0) (.float (.fin ((1 : ℚ) / 10000000000))) = false := by
  constructor
  · simp only [values_differ, Value.pyEq, Value.eqKey]
    norm_num
  · simp only [values_differ_claimed, numericVal, PyFloat.isNan,
      PyFloat.sub, PyFloat.abs, PyFloat.gtEps]
    norm_num
    rw [abs_of_pos (by norm_num)]
    norm_num

/-- C1 amended: a pair is judged different iff exactly one side is
null; or both sides are Python floats and either exactly one is NaN or
neither is and their absolute difference exceeds 1e-9; or, for any
other non-null pair (an integer paired with a float included), the two
are unequal under Python equality. -/
theorem values_differ_characterisation (a b : Value) :
    values_differ a b = true ↔
      ((a = .null ∧ b ≠ .null) ∨ (a ≠ .null ∧ b = .null) ∨
        (∃ x y, a = .float x ∧ b = .float y ∧
          (x.isNan ≠ y.isNan ∨
            (x.isNan = false ∧ y.isNan = false ∧
              (PyFloat.sub x y).abs.gtEps = true))) ∨
        (a ≠ .null ∧ b ≠ .null ∧ (∀ x y, ¬(a = .float x ∧ b = .float y)) ∧
          Value.pyEq a b = false)) := by
  cases a <;> cases b <;>
    simp [values_differ] <;>
    try rfl
  case float.float x y =>
    by_cases hx : x.isNan <;> by_cases hy : y.isNan <;> simp [hx, hy]

/-- C10: the difference predicate is symmetric. -/
theorem values_differ_symm (a b : Value) :
    values_differ a b = values_differ b a := by
  cases a <;> cases b <;>
    simp [values_differ, Value.pyEq_symm, pyFloat_abs_sub_comm]
  case float.float x y =>
    by_cases hx : x.isNan <;> by_cases hy : y.isNan <;>
      simp [hx, hy, pyFloat_abs_sub_comm]

/-- Numeric value of a digit string, most significant first. -/
def digitsToNat (ds : List Char) : ℕ :=
  ds.foldl (fun acc d => acc * 10 + (d.toNat - '0'.toNat)) 0

/-- Mantissa value of `ip . fp` as an exact rational. -/
def mantissaVal (ip fp : List Char) : ℚ :=
  (digitsToNat ip : ℚ) + (digitsToNat fp : ℚ) / ((10 : ℚ) ^ fp.length)

/-- Parse the exponent part after `e`/`E`: optional sign then a
non-empty digit string, consuming the whole remainder. -/
def parseExp (cs : List Char) : Option ℤ :=
  let signed : Bool × List Char :=
    match cs with
    | '+' :: r => (false, r)
    | '-' :: r => (true, r)
    | _ => (false, cs)
  if signed.2 ≠ [] ∧ signed.2.all Char.isDigit then
    some (if signed.1 then -(digitsToNat signed.2 : ℤ) else (digitsToNat signed.2 : ℤ))
  else none

/-- Attach an optional exponent suffix to a mantissa. -/
def withExp (m : ℚ) : List Char → Option ℚ
  | [] => some m
  | 'e' :: r => (parseExp r).map (fun e => m * (10 : ℚ) ^ e)
  | 'E' :: r => (parseExp r).map (fun e => m * (10 : ℚ) ^ e)
  | _ => none

/-- Parse an unsigned decimal float literal: digits with an optional
fraction part and an optional exponent, at least one digit present. -/
def parseDecimal (cs : List Char) : Option ℚ :=
  let ip := cs.takeWhile Char.isDigit
  let r1 := cs.dropWhile Char.isDigit
  match r1 with
  | '.' :: r2 =>
    let fp := r2.takeWhile Char.isDigit
    let r3 := r2.dropWhile Char.isDigit
    if ip.isEmpty && fp.isEmpty then none else withExp (mantissaVal ip fp) r3
  | _ => if ip.isEmpty then none else withExp (mantissaVal ip []) r1

/-- Model of the Python builtin `float(str)` as the engine uses it:
surrounding whitespace stripped, an optional sign, then either a
case-insensitive `inf`/`infinity`/`nan` keyword or a decimal literal
(digit-group underscores are not modelled). `none` models the
`ValueError` the engine catches. -/
def pyFloatOfString (s : String) : Option PyFloat :=
  let cs := ((s.toList.dropWhile Char.isWhitespace).reverse.dropWhile
    Char.isWhitespace).reverse
  let signed : Bool × List Char :=
    match cs with
    | '+' :: r => (false, r)
    | '-' :: r => (true, r)
    | _ => (false, cs)
  let low := signed.2.map Char.toLower
  if low = ['i', 'n', 'f'] ∨ low = ['i', 'n', 'f', 'i', 'n', 'i', 't', 'y'] then
    some (.inf signed.1)
  else if low = ['n', 'a', 'n'] then some .nan
  else (parseDecimal signed.2).map
    (fun q => .fin (if signed.1 then -q else q))

/-- Source: `_to_float_if_numeric(value)`.  `None` passes through;
ints — Python booleans included, being `int` instances — are widened
via `float(value)`; floats pass through; strings go through
`float(value)` with `ValueError` leaving them unchanged; anything else
passes through. -/
def to_float_if_numeric (value : Value) : Value :=
  match value with
  | .null => .null
  | .bool b => .float (.fin (if b then 1 else 0))
  | .int n => .float (.fin (n : ℚ))
  | .float f => .float f
  | .str s =>
    match pyFloatOfString s with
    | some f => .float f
    | none => .str s

/-- C6 counterexample: the coercion function does not leave the
literal string "inf" unchanged — Python `float("inf")` succeeds, so
the function converts it to the float `+inf`. -/
theorem to_float_if_numeric_inf_counterexample :
    to_float_if_numeric (.str "inf") = .float (.inf false) ∧
      Value.float (.inf false) ≠ Value.str "inf" := by
  exact ⟨rfl, by simp⟩

/-- C6 amended: the coercion maps null through unchanged, booleans to
the floats 0.0/1.0 (a Python bool is an int), integers widened to
float, floats through, and strings through `float(str)`: strings that
parse — the literals "inf"/"infinity"/"nan" included — become that
float, strings that do not parse pass through unchanged. -/
theorem to_float_if_numeric_spec :
    to_float_if_numeric .null = .null ∧
      (∀ b, to_float_if_numeric (.bool b) = .float (.fin (if b then 1 else 0))) ∧
      (∀ n : ℤ, to_float_if_numeric (.int n) = .float (.fin (n : ℚ))) ∧
      (∀ f, to_float_if_numeric (.float f) = .float f) ∧
      (∀ s, pyFloatOfString s = none → to_float_if_numeric (.str s) = .str s) ∧
      (∀ s f, pyFloatOfString s = some f →
        to_float_if_numeric (.str s) = .float f) ∧
      to_float_if_numeric (.str "12.5") = .float (.fin (25 / 2)) ∧
      to_float_if_numeric (.str "inf") = .float (.inf false) ∧
      to_float_if_numeric (.str "abc") = .str "abc" := by
  refine ⟨rfl, fun b => rfl, fun n => rfl, fun f => rfl, ?_, ?_, ?_, rfl, rfl⟩
  · intro s h
    simp [to_float_if_numeric, h]
  · intro s f h
    simp [to_float_if_numeric, h]
  · show Value.float (.fin ((12 : ℚ) + 5 / 10 ^ 1)) = Value.float (.fin (25 / 2))
    norm_num

theorem to_float_if_numeric_spec_witness :
    to_float_if_numeric (.str "xyz") = .str "xyz" :=
  to_float_if_numeric_spec.2.2.2.2.1 "xyz" rfl

/-- The sort key `(r.get("date") or "")`: the date string, with `""`
substituted when the field is absent or `None` (both falsy).  Faithful
for string-or-null-or-absent dates; a non-string date would make
Python's string comparison raise and is outside the claims' domain. -/
def dateKey (r : Record) : String :=
  match Record.pget r "date" with
  | .str s => s
  | _ => ""

/-- The sort key `(r.get("model_id") or "")`, as for `dateKey`. -/
def modelKey (r : Record) : String :=
  match Record.pget r "model_id" with
  | .str s => s
  | _ => ""

/-- `r` holds a string value at field `k`. -/
def isStrField (r : Record) (k : String) : Bool :=
  match Record.rget r k with
  | some (.str _) => true
  | _ => false

/-- Comparison of pass (a): date descending (`reverse=True`). -/
def dateDesc (a b : Record) : Prop := dateKey b ≤ dateKey a

/-- Comparison of pass (b): `model_id` ascending. -/
def modelAsc (a b : Record) : Prop := modelKey a ≤ modelKey b

instance : DecidableRel dateDesc := fun a b => by
  unfold dateDesc; infer_instance

instance : DecidableRel modelAsc := fun a b => by
  unfold modelAsc; infer_instance

instance : IsTotal Record dateDesc :=
  ⟨fun a b => le_total (dateKey b) (dateKey a)⟩

instance : IsTrans Record dateDesc :=
  ⟨fun _ _ _ h₁ h₂ => le_trans h₂ h₁⟩

instance : IsTotal Record modelAsc :=
  ⟨fun a b => le_total (modelKey a) (modelKey b)⟩

instance : IsTrans Record modelAsc :=
  ⟨fun _ _ _ h₁ h₂ => le_trans h₁ h₂⟩

/-- Source: `_sort_records_for_summary(records)`.  Python's `sorted`
is a stable sort, modelled by Mathlib's stable `insertionSort`: pass
(a) stable-sorts by date descending (ties keep their original order
under `reverse=True`), pass (b) stable-sorts that result by `model_id`
ascending. -/
def sort_records_for_summary (records : List Record) : List Record :=
  List.insertionSort modelAsc (List.insertionSort dateDesc records)

/-- The presentation ordering the Orderer must produce: `model_id`
groups ascending and contiguous, dates descending inside a group. -/
def summaryOrder (a b : Record) : Prop :=
  modelKey a ≤ modelKey b ∧ (modelKey a = modelKey b → dateKey b ≤ dateKey a)

theorem orderedInsert_summaryOrder {a : Record} :
    ∀ {L : List Record}, L.Sorted modelAsc → L.Pairwise summaryOrder →
      (∀ b ∈ L, dateKey b ≤ dateKey a) →
      (L.orderedInsert modelAsc a).Pairwise summaryOrder := by
  intro L
  induction L with
  | nil =>
    intro _ _ _
    simp [List.orderedInsert]
  | cons b L ih =>
    intro hs hp hd
    rw [List.orderedInsert]
    by_cases h : modelAsc a b
    · rw [if_pos h]
      refine List.pairwise_cons.2 ⟨?_, hp⟩
      intro c hc
      rcases List.mem_cons.1 hc with rfl | hcL
      · exact ⟨h, fun _ => hd c (List.mem_cons_self _ _)⟩
      · refine ⟨le_trans h (List.rel_of_sorted_cons hs c hcL), ?_⟩
        exact fun _ => hd c (List.mem_cons_of_mem _ hcL)
    · rw [if_neg h]
      have hlt : modelKey b < modelKey a := lt_of_not_le h
      refine List.pairwise_cons.2 ⟨?_, ?_⟩
      · intro c hc
        rcases (List.mem_orderedInsert modelAsc).1 hc with rfl | hcL
        · exact ⟨le_of_lt hlt, fun heq => absurd heq (ne_of_lt hlt)⟩
        · exact (List.pairwise_cons.1 hp).1 c hcL
      · exact ih hs.of_cons (List.pairwise_cons.1 hp).2
          (fun c hc => hd c (List.mem_cons_of_mem _ hc))

theorem insertionSort_summaryOrder :
    ∀ {l : List Record}, l.Pairwise dateDesc →
      (l.insertionSort modelAsc).Pairwise summaryOrder := by
  intro l
  induction l with
  | nil =>
    intro _
    simp [List.insertionSort]
  | cons a l ih =>
    intro hp
    rw [List.insertionSort]
    refine orderedInsert_summaryOrder (List.sorted_insertionSort modelAsc l)
      (ih (List.pairwise_cons.1 hp).2) ?_
    intro b hb
    exact (List.pairwise_cons.1 hp).1 b ((List.mem_insertionSort modelAsc).1 hb)

/-- C2: the Orderer's output is a permutation of its input in which
`model_id` values are ascending — hence records sharing a `model_id`
are contiguous — and, whenever two records share a `model_id`, the
earlier one carries the later (or equal) date, so the first record of
each group has that group's maximum date. -/
theorem sort_records_for_summary_spec (records : List Record)
    (hdate : ∀ r ∈ records, isStrField r "date" = true)
    (hmodel : ∀ r ∈ records, isStrField r "model_id" = true) :
    (sort_records_for_summary records).Perm records ∧
      (sort_records_for_summary records).Pairwise summaryOrder := by
  constructor
  · exact (List.perm_insertionSort _ _).trans (List.perm_insertionSort _ _)
  · exact insertionSort_summaryOrder
      (List.sorted_insertionSort dateDesc records)

/-- C2 witness: the theorem applied to two concrete records of one
model, dates out of order. -/
theorem sort_records_for_summary_spec_witness :
    (sort_records_for_summary
        [[("date", Value.str "20260101"), ("model_id", Value.str "m1")],
          [("date", Value.str "20260102"), ("model_id", Value.str "m1")]]).Perm
        [[("date", Value.str "20260101"), ("model_id", Value.str "m1")],
          [("date", Value.str "20260102"), ("model_id", Value.str "m1")]] ∧
      (sort_records_for_summary
        [[("date", Value.str "20260101"), ("model_id", Value.str "m1")],
          [("date", Value.str "20260102"), ("model_id", Value.str "m1")]]).Pairwise
        summaryOrder :=
  sort_records_for_summary_spec _ (by decide) (by decide)

/-- The value stored for an optional metadata string (`None` or `str`). -/
def Value.ofOptStr : Option String → Value
  | some s => .str s
  | none => .null

/-- Lexicographic `<=` on code-point lists: a kernel-computable model
of Python string comparison, which compares code points left to
right. -/
def charListLe : List Char → List Char → Bool
  | [], _ => true
  | _ :: _, [] => false
  | a :: as, b :: bs =>
    if a < b then true
    else if b < a then false
    else charListLe as bs

/-- Python `a <= b` on strings. -/
def pyStrLe (a b : String) : Bool := charListLe a.toList b.toList

/-- Python `a < b` on strings. -/
def pyStrLt (a b : String) : Bool := !pyStrLe b a

theorem charListLe_iff : ∀ as bs : List Char,
    charListLe as bs = true ↔ ¬List.Lex (· < ·) bs as
  | [], bs => by
    constructor
    · intro _ h
      exact List.Lex.not_nil_right _ _ h
    · intro _
      rfl
  | a :: as, [] => by
    constructor
    · intro h
      cases h
    · intro h
      exact absurd List.Lex.nil h
  | a :: as, b :: bs => by
    rw [charListLe]
    by_cases hab : a < b
    · rw [if_pos hab]
      constructor
      · intro _ h
        cases h with
        | cons h' => exact absurd hab (lt_irrefl _)
        | rel h' => exact absurd hab (asymm h')
      · intro _
        rfl
    · rw [if_neg hab]
      by_cases hba : b < a
      · rw [if_pos hba]
        constructor
        · intro h
          cases h
        · intro h
          exact absurd (List.Lex.rel hba) h
      · rw [if_neg hba]
        have heq : a = b := le_antisymm (not_lt.1 hba) (not_lt.1 hab)
        subst heq
        rw [charListLe_iff as bs]
        constructor
        · intro h hl
          exact h (List.Lex.cons_iff.1 hl)
        · intro h hl
          exact h (List.Lex.cons hl)

theorem pyStrLe_iff (a b : String) : pyStrLe a b = true ↔ a ≤ b := by
  rw [pyStrLe, charListLe_iff, String.le_iff_toList_le]
  show ¬b.toList < a.toList ↔ a.toList ≤ b.toList
  exact not_lt

/-- Python `max(a, x)` as the `max` builtin folds it: `x` replaces the
running maximum `a` only when `x > a`. -/
def pyStrMax (a x : String) : String := if pyStrLt a x then x else a

theorem pyStrMax_eq_max (a x : String) : pyStrMax a x = max a x := by
  rw [pyStrMax, pyStrLt]
  by_cases h : pyStrLe x a = true
  · rw [h]
    simp only [Bool.not_true, Bool.false_eq_true, if_false]
    exact (max_eq_left ((pyStrLe_iff x a).1 h)).symm
  · have hx : pyStrLe x a = false := by
      cases hc : pyStrLe x a
      · rfl
      · exact absurd hc h
    rw [hx]
    simp only [Bool.not_false, if_true]
    have hnle : ¬x ≤ a := fun hle => h ((pyStrLe_iff x a).2 hle)
    exact (max_eq_right (le_of_not_le hnle)).symm

/-- Source: `max((r.get("date") or "") for r in records)`.  Python's
`max` over the non-empty generator (the caller returns early on an
empty collection); the fold's `""` seed is below every string, so on a
non-empty collection the fold equals that maximum. -/
def max_date (records : List Record) : String :=
  records.foldl (fun acc r => pyStrMax acc (dateKey r)) ""

theorem max_date_eq_foldl_max (records : List Record) :
    max_date records = records.foldl (fun acc r => max acc (dateKey r)) "" := by
  rw [max_date]
  have hfun : (fun acc r => pyStrMax acc (dateKey r))
      = fun (acc : String) (r : Record) => max acc (dateKey r) :=
    funext fun acc => funext fun r => pyStrMax_eq_max acc (dateKey r)
  rw [hfun]

/-- The three assignments `r["commit_sha"] = …`, `r["build_id"] = …`,
`r["build_url"] = …` of the Applicator, in source order. -/
def stampBuildMetadata (r : Record) (c bi bu : Value) : Record :=
  Record.rset (Record.rset (Record.rset r "commit_sha" c) "build_id" bi)
    "build_url" bu

/-- Source: `_apply_build_metadata_to_latest_only(records, commit_sha,
build_id, build_url)`: no-op on an empty collection; otherwise every
record at the maximum date gets the supplied values, every other
record gets `None` in all three fields.  Python mutates in place; the
model returns the mutated list. -/
def apply_build_metadata_to_latest_only (records : List Record)
    (commit_sha build_id build_url : Option String) : List Record :=
  if records.isEmpty then records
  else
    records.map fun r =>
      if dateKey r = max_date records then
        stampBuildMetadata r (.ofOptStr commit_sha) (.ofOptStr build_id)
          (.ofOptStr build_url)
      else stampBuildMetadata r .null .null .null

theorem stampBuildMetadata_fields (r : Record) (c bi bu : Value) :
    Record.rget (stampBuildMetadata r c bi bu) "commit_sha" = some c ∧
      Record.rget (stampBuildMetadata r c bi bu) "build_id" = some bi ∧
      Record.rget (stampBuildMetadata r c bi bu) "build_url" = some bu := by
  unfold stampBuildMetadata
  refine ⟨?_, ?_, ?_⟩
  · rw [Record.rget_rset_ne _ _ (by decide), Record.rget_rset_ne _ _ (by decide),
      Record.rget_rset_self]
  · rw [Record.rget_rset_ne _ _ (by decide), Record.rget_rset_self]
  · rw [Record.rget_rset_self]

theorem dateKey_stampBuildMetadata (r : Record) (c bi bu : Value) :
    dateKey (stampBuildMetadata r c bi bu) = dateKey r := by
  unfold dateKey Record.pget stampBuildMetadata
  rw [Record.rget_rset_ne _ _ (by decide), Record.rget_rset_ne _ _ (by decide),
    Record.rget_rset_ne _ _ (by decide)]

theorem le_foldl_max (l : List String) :
    ∀ acc : String, acc ≤ l.foldl max acc := by
  induction l with
  | nil => intro acc; exact le_refl _
  | cons a l ih =>
    intro acc
    exact le_trans (le_max_left acc a) (ih (max acc a))

theorem mem_le_foldl_max (l : List String) :
    ∀ (acc s : String), s ∈ l → s ≤ l.foldl max acc := by
  induction l with
  | nil => intro _ s h; cases h
  | cons a l ih =>
    intro acc s h
    rcases List.mem_cons.1 h with rfl | h
    · exact le_trans (le_max_right acc s) (le_foldl_max l (max acc s))
    · exact ih (max acc a) s h

theorem foldl_max_acc_or_mem (l : List String) :
    ∀ acc : String, l.foldl max acc = acc ∨ l.foldl max acc ∈ l := by
  induction l with
  | nil => intro acc; exact Or.inl rfl
  | cons a l ih =>
    intro acc
    rcases ih (max acc a) with h | h
    · rcases max_choice acc a with hm | hm
      · exact Or.inl (by rw [List.foldl_cons, h, hm])
      · exact Or.inr (by rw [List.foldl_cons, h, hm]; exact List.mem_cons_self _ _)
    · exact Or.inr (List.mem_cons_of_mem _ (by rw [List.foldl_cons]; exact h))

theorem empty_string_le (s : String) : "" ≤ s := by
  rw [String.le_iff_toList_le]
  exact List.nil_le

theorem max_date_is_max (records : List Record) :
    (∀ r ∈ records, dateKey r ≤ max_date records) ∧
      (records ≠ [] → ∃ r ∈ records, dateKey r = max_date records) := by
  have hfold : max_date records = (records.map dateKey).foldl max "" := by
    rw [max_date_eq_foldl_max]
    exact (List.foldl_map dateKey max records "").symm
  constructor
  · intro r hr
    rw [hfold]
    exact mem_le_foldl_max (records.map dateKey) "" (dateKey r)
      (List.mem_map_of_mem _ hr)
  · intro hne
    rcases foldl_max_acc_or_mem (records.map dateKey) "" with h | h
    · obtain ⟨r0, hr0⟩ := List.exists_mem_of_ne_nil records hne
      have hle : dateKey r0 ≤ "" := by
        have := mem_le_foldl_max (records.map dateKey) "" (dateKey r0)
          (List.mem_map_of_mem _ hr0)
        rwa [h] at this
      refine ⟨r0, hr0, ?_⟩
      rw [hfold, h]
      exact le_antisymm hle (empty_string_le _)
    · obtain ⟨r, hr, hrk⟩ := List.mem_map.1 h
      exact ⟨r, hr, by rw [hfold, ← hrk]⟩

/-- The date field is a string, `None`, or absent — the values on
which `or ""` and Python's string `max` behave as modelled. -/
def dateFieldOk (r : Record) : Bool :=
  match Record.rget r "date" with
  | some (.str _) => true
  | some .null => true
  | none => true
  | _ => false

/-- C3: the Applicator leaves an empty collection unchanged; on any
collection it preserves length and each record's date; `max_date` is
the maximum date string (attained by some record when non-empty); and
afterwards every record at the maximum date — every tie included —
carries exactly the supplied values in its three build-metadata
fields, while every other record carries explicit null in all three. -/
theorem apply_build_metadata_to_latest_only_spec (records : List Record)
    (c bi bu : Option String)
    (hd : ∀ r ∈ records, dateFieldOk r = true) :
    (records = [] →
        apply_build_metadata_to_latest_only records c bi bu = records) ∧
      (apply_build_metadata_to_latest_only records c bi bu).length
        = records.length ∧
      (∀ r ∈ records, dateKey r ≤ max_date records) ∧
      (records ≠ [] → ∃ r ∈ records, dateKey r = max_date records) ∧
      ∀ (i : ℕ) (r₀ : Record), records[i]? = some r₀ →
        ∃ r₁, (apply_build_metadata_to_latest_only records c bi bu)[i]?
            = some r₁ ∧
          dateKey r₁ = dateKey r₀ ∧
          (dateKey r₀ = max_date records →
            Record.rget r₁ "commit_sha" = some (Value.ofOptStr c) ∧
              Record.rget r₁ "build_id" = some (Value.ofOptStr bi) ∧
              Record.rget r₁ "build_url" = some (Value.ofOptStr bu)) ∧
          (dateKey r₀ ≠ max_date records →
            Record.rget r₁ "commit_sha" = some Value.null ∧
              Record.rget r₁ "build_id" = some Value.null ∧
              Record.rget r₁ "build_url" = some Value.null) := by
  refine ⟨?_, ?_, (max_date_is_max records).1, (max_date_is_max records).2, ?_⟩
  · intro h
    subst h
    rfl
  · by_cases he : records.isEmpty <;>
      simp [apply_build_metadata_to_latest_only, he]
  · intro i r₀ h
    have hne : ¬records.isEmpty := by
      intro he
      rw [List.isEmpty_iff.1 he] at h
      simp at h
    rw [apply_build_metadata_to_latest_only, if_neg hne]
    rw [List.getElem?_map, h]
    by_cases hmax : dateKey r₀ = max_date records
    · refine ⟨_, by simp only [Option.map_some']; rw [if_pos hmax], ?_, ?_, ?_⟩
      · exact dateKey_stampBuildMetadata _ _ _ _
      · intro _
        exact stampBuildMetadata_fields _ _ _ _
      · intro hc
        exact absurd hmax hc
    · refine ⟨_, by simp only [Option.map_some']; rw [if_neg hmax], ?_, ?_, ?_⟩
      · exact dateKey_stampBuildMetadata _ _ _ _
      · intro hc
        exact absurd hc hmax
      · intro _
        exact stampBuildMetadata_fields _ _ _ _

/-- C3 witness: two records tied at the maximum date and one older
record, stamped with a concrete metadata triple. -/
theorem apply_build_metadata_to_latest_only_spec_witness :
    (([[("date", Value.str "20260102"), ("model_id", Value.str "m1")],
        [("date", Value.str "20260101"), ("model_id", Value.str "m1")],
        [("date", Value.str "20260102"), ("model_id", Value.str "m2")]]
          : List Record) = [] →
        apply_build_metadata_to_latest_only
          [[("date", Value.str "20260102"), ("model_id", Value.str "m1")],
            [("date", Value.str "20260101"), ("model_id", Value.str "m1")],
            [("date", Value.str "20260102"), ("model_id", Value.str "m2")]]
          (some "sha") (some "id") (some "url")
          = [[("date", Value.str "20260102"), ("model_id", Value.str "m1")],
              [("date", Value.str "20260101"), ("model_id", Value.str "m1")],
              [("date", Value.str "20260102"), ("model_id", Value.str "m2")]]) ∧
      (apply_build_metadata_to_latest_only
          [[("date", Value.str "20260102"), ("model_id", Value.str "m1")],
            [("date", Value.str "20260101"), ("model_id", Value.str "m1")],
            [("date", Value.str "20260102"), ("model_id", Value.str "m2")]]
          (some "sha") (some "id") (some "url")).length
        = ([[("date", Value.str "20260102"), ("model_id", Value.str "m1")],
            [("date", Value.str "20260101"), ("model_id", Value.str "m1")],
            [("date", Value.str "20260102"), ("model_id", Value.str "m2")]]
              : List Record).length ∧
      (∀ r ∈ ([[("date", Value.str "20260102"), ("model_id", Value.str "m1")],
          [("date", Value.str "20260101"), ("model_id", Value.str "m1")],
          [("date", Value.str "20260102"), ("model_id", Value.str "m2")]]
            : List Record),
        dateKey r ≤ max_date
          [[("date", Value.str "20260102"), ("model_id", Value.str "m1")],
            [("date", Value.str "20260101"), ("model_id", Value.str "m1")],
            [("date", Value.str "20260102"), ("model_id", Value.str "m2")]]) ∧
      (([[("date", Value.str "20260102"), ("model_id", Value.str "m1")],
          [("date", Value.str "20260101"), ("model_id", Value.str "m1")],
          [("date", Value.str "20260102"), ("model_id", Value.str "m2")]]
            : List Record) ≠ [] →
        ∃ r ∈ ([[("date", Value.str "20260102"), ("model_id", Value.str "m1")],
            [("date", Value.str "20260101"), ("model_id", Value.str "m1")],
            [("date", Value.str "20260102"), ("model_id", Value.str "m2")]]
              : List Record),
          dateKey r = max_date
            [[("date", Value.str "20260102"), ("model_id", Value.str "m1")],
              [("date", Value.str "20260101"), ("model_id", Value.str "m1")],
              [("date", Value.str "20260102"), ("model_id", Value.str "m2")]]) ∧
      ∀ (i : ℕ) (r₀ : Record),
        ([[("date", Value.str "20260102"), ("model_id", Value.str "m1")],
          [("date", Value.str "20260101"), ("model_id", Value.str "m1")],
          [("date", Value.str "20260102"), ("model_id", Value.str "m2")]]
            : List Record)[i]? = some r₀ →
        ∃ r₁, (apply_build_metadata_to_latest_only
            [[("date", Value.str "20260102"), ("model_id", Value.str "m1")],
              [("date", Value.str "20260101"), ("model_id", Value.str "m1")],
              [("date", Value.str "20260102"), ("model_id", Value.str "m2")]]
            (some "sha") (some "id") (some "url"))[i]? = some r₁ ∧
          dateKey r₁ = dateKey r₀ ∧
          (dateKey r₀ = max_date
              [[("date", Value.str "20260102"), ("model_id", Value.str "m1")],
                [("date", Value.str "20260101"), ("model_id", Value.str "m1")],
                [("date", Value.str "20260102"), ("model_id", Value.str "m2")]] →
            Record.rget r₁ "commit_sha" = some (Value.ofOptStr (some "sha")) ∧
              Record.rget r₁ "build_id" = some (Value.ofOptStr (some "id")) ∧
              Record.rget r₁ "build_url" = some (Value.ofOptStr (some "url"))) ∧
          (dateKey r₀ ≠ max_date
              [[("date", Value.str "20260102"), ("model_id", Value.str "m1")],
                [("date", Value.str "20260101"), ("model_id", Value.str "m1")],
                [("date", Value.str "20260102"), ("model_id", Value.str "m2")]] →
            Record.rget r₁ "commit_sha" = some Value.null ∧
              Record.rget r₁ "build_id" = some Value.null ∧
              Record.rget r₁ "build_url" = some Value.null) :=
  apply_build_metadata_to_latest_only_spec _ (some "sha") (some "id")
    (some "url") (by decide)

/-- Source: the `BENCHMARK_COLUMNS` tuple. -/
def BENCHMARK_COLUMNS : List String :=
  ["num_prompts", "request_rate", "burstiness", "max_concurrency",
    "duration", "completed", "failed", "request_throughput",
    "output_throughput", "total_token_throughput", "mean_ttft_ms",
    "p99_ttft_ms", "mean_tpot_ms", "p99_tpot_ms", "mean_itl_ms",
    "p99_itl_ms", "mean_e2el_ms", "p99_e2el_ms", "mean_audio_rtf",
    "p99_audio_rtf", "mean_audio_duration_s", "p99_audio_duration_s"]

/-- Source: `NUMERIC_FORMAT_COLUMNS`, the benchmark columns with
`request_rate` and `max_concurrency` removed. -/
def NUMERIC_FORMAT_COLUMNS : List String :=
  BENCHMARK_COLUMNS.filter
    fun c => !(["request_rate", "max_concurrency"].contains c)

/-- `col_to_index = {c: i + 1 for i, c in enumerate(summary_columns)}`
looked up at `c`: a later duplicate column overwrites an earlier one,
so this is one plus the last 0-based index of `c`. -/
def col_to_index : List String → String → Option ℕ
  | [], _ => none
  | c' :: rest, c =>
    match col_to_index rest c with
    | some i => some (i + 1)
    | none => if c' = c then some 1 else none

/-- The column indices greyed for one block: for each benchmark column
present in the summary schema, the column's 1-based index when the
newest and previous values differ (`records[idx].get(col)` is `None`
for an absent field). -/
def highlight_row_cols (cols : List String) (cur prev : Record) : List ℕ :=
  BENCHMARK_COLUMNS.filterMap fun col =>
    match col_to_index cols col with
    | none => none
    | some ci =>
      if values_differ (Record.pget cur col) (Record.pget prev col) then
        some ci
      else none

theorem length_dropWhile_le' {α : Type} (p : α → Bool) (l : List α) :
    (l.dropWhile p).length ≤ l.length := by
  conv_rhs => rw [← List.takeWhile_append_dropWhile p l]
  rw [List.length_append]
  omega

/-- The block walk of the source's `while` loops: `i` is the absolute
position of the current block head, `run` the rest of its contiguous
`model_id` block, and emission happens only when the block has a
second record (`prev_idx is None` otherwise).  `excel_row` is
`newest_idx + 2`.  The recursion is structural on a fuel argument so
that the model stays kernel-computable; each step consumes at least
one record, so fuel `records.length` never runs out. -/
def highlight_walk (cols : List String) : ℕ → ℕ → List Record → List (ℕ × ℕ)
  | 0, _, _ => []
  | _ + 1, _, [] => []
  | fuel + 1, i, r :: rest =>
    let m := Record.pget r "model_id"
    let run := rest.takeWhile fun s => Value.pyEq (Record.pget s "model_id") m
    let rest' := rest.dropWhile fun s => Value.pyEq (Record.pget s "model_id") m
    (match run with
      | [] => []
      | prev :: _ =>
        (highlight_row_cols cols r prev).map fun ci => (i + 2, ci)) ++
      highlight_walk cols fuel (i + 1 + run.length) rest' 

/-- Source: `_apply_benchmark_change_highlight(ws, summary_columns,
records)`, modelled as the set of `(row, column)` sheet cells it greys
(1-based, header occupying row 1).  The source's inner `while` also
re-tests the block head against itself; a head whose `model_id` does
not equal itself (a float NaN) would make the source loop forever, so
the claims restrict to records whose `model_id` equals itself, on
which this model is faithful. -/
def apply_benchmark_change_highlight (summary_columns : List String)
    (records : List Record) : List (ℕ × ℕ) :=
  if records.isEmpty then []
  else highlight_walk summary_columns records.length 0 records

theorem highlight_walk_spec (cols : List String) (full : List Record)
    (hself : ∀ r ∈ full, Value.pyEq (Record.pget r "model_id")
      (Record.pget r "model_id") = true) :
    ∀ (n : ℕ) (rs : List Record), rs.length ≤ n → ∀ i : ℕ,
      full.drop i = rs →
      (i = 0 ∨ ∀ rp r₀, full[i - 1]? = some rp → full[i]? = some r₀ →
        Value.pyEq (Record.pget r₀ "model_id")
          (Record.pget rp "model_id") = false) →
      ∀ p ∈ highlight_walk cols n i rs,
        ∃ (j : ℕ) (r r' : Record),
          p.1 = j + 2 ∧ full[j]? = some r ∧ full[j + 1]? = some r' ∧
          Value.pyEq (Record.pget r' "model_id")
            (Record.pget r "model_id") = true ∧
          (j = 0 ∨ ∀ rp, full[j - 1]? = some rp →
            Value.pyEq (Record.pget r "model_id")
              (Record.pget rp "model_id") = false) := by
  intro n
  induction n with
  | zero =>
    intro rs _ i _ _ p hp
    simp [highlight_walk] at hp
  | succ n ih =>
    intro rs hlen i hdrop hbnd p hp
    cases rs with
    | nil => simp [highlight_walk] at hp
    | cons r rest =>
      have hfull_i : full[i]? = some r := by
        have h0 : (full.drop i)[0]? = some r := by
          rw [hdrop, List.getElem?_cons_zero]
        rwa [List.getElem?_drop] at h0
      have hdrop1 : full.drop (i + 1) = rest := by
        have : List.drop 1 (full.drop i) = rest := by
          rw [hdrop, List.drop_one]
          rfl
        rwa [List.drop_drop] at this
      have hrest : ∀ j : ℕ, full[i + 1 + j]? = rest[j]? := by
        intro j
        rw [← hdrop1, List.getElem?_drop]
      set f : Record → Bool :=
        fun s => Value.pyEq (Record.pget s "model_id")
          (Record.pget r "model_id") with hf
      have hsplit : rest.takeWhile f ++ rest.dropWhile f = rest :=
        List.takeWhile_append_dropWhile f rest
      unfold highlight_walk at hp
      rcases List.mem_append.1 hp with hp1 | hp2
      · -- emitted for this block head
        cases hrun : rest.takeWhile f with
        | nil =>
          rw [hrun] at hp1
          simp at hp1
        | cons prev run' =>
          rw [hrun] at hp1
          obtain ⟨ci, _, hpe⟩ := List.mem_map.1 hp1
          refine ⟨i, r, prev, ?_, hfull_i, ?_, ?_, ?_⟩
          · rw [← hpe]
          · have : rest[0]? = some prev := by
              rw [← hsplit, hrun, List.getElem?_append_left (by simp),
                List.getElem?_cons_zero]
            rw [← this, ← hrest 0]
          · have hprevmem : prev ∈ rest.takeWhile f := by
              rw [hrun]
              exact List.mem_cons_self _ _
            have hft := List.mem_takeWhile_imp hprevmem
            exact hft
          · rcases hbnd with h0 | hb
            · exact Or.inl h0
            · exact Or.inr fun rp hrp => hb rp r hrp hfull_i
      · -- emitted in a later block: apply the induction hypothesis
        have hlen' : (rest.dropWhile f).length ≤ n := by
          have h1 := length_dropWhile_le' f rest
          have h2 : rest.length + 1 ≤ n + 1 := by simpa using hlen
          omega
        have hdl := congrArg (List.drop (rest.takeWhile f).length) hsplit
        rw [List.drop_left] at hdl
        have hdrop' : full.drop (i + 1 + (rest.takeWhile f).length)
            = rest.dropWhile f := by
          have : List.drop (rest.takeWhile f).length (full.drop (i + 1))
              = rest.dropWhile f := by
            rw [hdrop1, ← hdl]
          rwa [List.drop_drop] at this
        have hbnd' : ∀ rp r₀,
            full[i + 1 + (rest.takeWhile f).length - 1]? = some rp →
            full[i + 1 + (rest.takeWhile f).length]? = some r₀ →
            Value.pyEq (Record.pget r₀ "model_id")
              (Record.pget rp "model_id") = false := by
          intro rp r₀ hrp hr₀
          have hr₀' : (rest.dropWhile f)[0]? = some r₀ := by
            rw [← hdrop', List.getElem?_drop, Nat.add_zero]
            exact hr₀
          have hne' : rest.dropWhile f ≠ [] := by
            intro hnil
            rw [hnil] at hr₀'
            simp at hr₀'
          have hfail : f r₀ = false := by
            have hnot := List.head_dropWhile_not f rest hne'
            have hh : (rest.dropWhile f).head? = some r₀ := by
              rw [List.head?_eq_getElem?]
              exact hr₀'
            rw [List.head?_eq_head hne'] at hh
            rw [Option.some_inj.1 hh] at hnot
            exact hnot
          cases hrun : rest.takeWhile f with
          | nil =>
            have : full[i]? = some rp := by
              rw [hrun] at hrp
              simpa using hrp
            have hrpr : rp = r := by
              rw [hfull_i] at this
              exact (Option.some_inj.1 this).symm
            rw [hrpr]
            rw [hf] at hfail
            exact hfail
          | cons q run'' =>
            have hlenrun : (rest.takeWhile f).length = run''.length + 1 := by
              rw [hrun]
              simp
            have hrp' : rest[(rest.takeWhile f).length - 1]? = some rp := by
              have harith : i + 1 + (rest.takeWhile f).length - 1
                  = i + 1 + ((rest.takeWhile f).length - 1) := by
                omega
              rw [harith] at hrp
              rw [← hrest _]
              exact hrp
            have hrpmem : rp ∈ rest.takeWhile f := by
              have hx : (rest.takeWhile f ++
                    rest.dropWhile f)[(rest.takeWhile f).length - 1]?
                  = (rest.takeWhile f)[(rest.takeWhile f).length - 1]? :=
                List.getElem?_append_left (by omega)
              rw [hsplit] at hx
              rw [hx] at hrp'
              exact List.getElem?_mem hrp'
            have hrpf : f rp = true := List.mem_takeWhile_imp hrpmem
            by_contra hcon
            have htrue : Value.pyEq (Record.pget r₀ "model_id")
                (Record.pget rp "model_id") = true := by
              cases hv : Value.pyEq (Record.pget r₀ "model_id")
                  (Record.pget rp "model_id")
              · exact absurd hv hcon
              · rfl
            have : f r₀ = true := by
              rw [hf]
              exact Value.pyEq_trans htrue hrpf
            rw [this] at hfail
            cases hfail
        exact ih (rest.dropWhile f) hlen' (i + 1 + (rest.takeWhile f).length)
          hdrop' (Or.inr hbnd') p hp2

/-- C4: every highlight instruction the Diff Highlighter emits lands
at sheet row `j + 2` where `j` is the 0-based list position of the
first record of a contiguous `model_id` block of size at least 2; a
block with fewer than 2 records never produces a highlight, and the
walk is total (no error).  The hypothesis excludes records whose
`model_id` does not equal itself (a float NaN), on which the source
itself would not terminate. -/
theorem highlight_only_first_of_block (cols : List String)
    (records : List Record)
    (hself : ∀ r ∈ records, Value.pyEq (Record.pget r "model_id")
      (Record.pget r "model_id") = true) :
    ∀ p ∈ apply_benchmark_change_highlight cols records,
      ∃ (j : ℕ) (r r' : Record),
        p.1 = j + 2 ∧ records[j]? = some r ∧ records[j + 1]? = some r' ∧
        Value.pyEq (Record.pget r' "model_id")
          (Record.pget r "model_id") = true ∧
        (j = 0 ∨ ∀ rp, records[j - 1]? = some rp →
          Value.pyEq (Record.pget r "model_id")
            (Record.pget rp "model_id") = false) := by
  intro p hp
  unfold apply_benchmark_change_highlight at hp
  by_cases he : records.isEmpty
  · rw [if_pos he] at hp
    cases hp
  · rw [if_neg he] at hp
    exact highlight_walk_spec cols records hself records.length records
      (le_refl _) 0 (List.drop_zero records) (Or.inl rfl) p hp

/-- C4 witness: three records — a two-record `m1` block with a changed
`num_prompts` and a singleton `m2` block — where the instruction
`(2, 3)` is emitted for the first row of the `m1` block. -/
theorem highlight_only_first_of_block_witness :
    ∃ (j : ℕ) (r r' : Record),
      ((2, 3) : ℕ × ℕ).1 = j + 2 ∧
      ([[("model_id", Value.str "m1"), ("num_prompts", Value.str "10")],
        [("model_id", Value.str "m1"), ("num_prompts", Value.str "20")],
        [("model_id", Value.str "m2"), ("num_prompts", Value.str "10")]]
          : List Record)[j]? = some r ∧
      ([[("model_id", Value.str "m1"), ("num_prompts", Value.str "10")],
        [("model_id", Value.str "m1"), ("num_prompts", Value.str "20")],
        [("model_id", Value.str "m2"), ("num_prompts", Value.str "10")]]
          : List Record)[j + 1]? = some r' ∧
      Value.pyEq (Record.pget r' "model_id")
        (Record.pget r "model_id") = true ∧
      (j = 0 ∨ ∀ rp,
        ([[("model_id", Value.str "m1"), ("num_prompts", Value.str "10")],
          [("model_id", Value.str "m1"), ("num_prompts", Value.str "20")],
          [("model_id", Value.str "m2"), ("num_prompts", Value.str "10")]]
            : List Record)[j - 1]? = some rp →
        Value.pyEq (Record.pget r "model_id")
          (Record.pget rp "model_id") = false) :=
  highlight_only_first_of_block ["date", "model_id", "num_prompts"]
    [[("model_id", Value.str "m1"), ("num_prompts", Value.str "10")],
      [("model_id", Value.str "m1"), ("num_prompts", Value.str "20")],
      [("model_id", Value.str "m2"), ("num_prompts", Value.str "10")]]
    (by decide) (2, 3) (by decide)

/-- A parsed JSON document root as the Loader distinguishes it: an
object (with the scalar fields a record stores), an array, or a bare
scalar. -/
inductive JsonDoc : Type
  | obj (fields : Record) : JsonDoc
  | arr (elems : List Value) : JsonDoc
  | scalar (v : Value) : JsonDoc
deriving DecidableEq

/-- Source: `_load_json_file(path)`, as a function of the file's
read-and-parse outcome (`none` models the `OSError` or
`JSONDecodeError` the source catches): a failure or a non-object root
yields no record, with a warning logged; an object root is returned
unmodified. -/
def load_json_file : Option JsonDoc → Option Record
  | none => none
  | some (.obj fields) => some fields
  | some _ => none

/-- Source: the per-file normalisation in `_iter_json_records`:
`record = dict(data)`, then `record.setdefault("date", utcnow)`, then
`record["source_file"] = basename`.  `now` is the run's formatted
`datetime.utcnow()` timestamp, `name` the file's basename. -/
def normalize_record (data : Record) (now : String) (name : String) : Record :=
  Record.rset (Record.setdefault data "date" (.str now)) "source_file"
    (.str name)

/-- Source: `_iter_json_records` / `_collect_records`, as a function of
the directory listing: `files` pairs each `*.json` entry, in the
lexicographically sorted listing order, with its read-and-parse
outcome (a missing directory is the empty listing).  Files whose load
yields no record are skipped; the rest are normalised in order. -/
def collect_records (files : List (String × Option JsonDoc))
    (now : String) : List Record :=
  files.filterMap fun nd =>
    (load_json_file nd.2).map fun data => normalize_record data now nd.1

theorem rget_append (r s : Record) (k : String) :
    Record.rget (r ++ s) k
      = match Record.rget r k with
        | some v => some v
        | none => Record.rget s k := by
  induction r with
  | nil => simp [Record.rget]
  | cons p rest ih =>
    obtain ⟨k', v'⟩ := p
    by_cases h : k' = k <;> simp [Record.rget, h, ih]

theorem rget_setdefault_self (r : Record) (k : String) (v : Value) :
    Record.rget (Record.setdefault r k v) k
      = some ((Record.rget r k).getD v) := by
  unfold Record.setdefault
  cases h : Record.rget r k with
  | some w => simp [h]
  | none =>
    simp only [h, Option.isSome_none, Bool.false_eq_true, if_false,
      Option.getD_none]
    rw [rget_append, h]
    simp [Record.rget]

theorem rget_setdefault_ne (r : Record) {k k' : String} (v : Value)
    (h : k' ≠ k) :
    Record.rget (Record.setdefault r k v) k' = Record.rget r k' := by
  unfold Record.setdefault
  by_cases hp : (Record.rget r k).isSome
  · simp [hp]
  · simp only [hp, Bool.false_eq_true, if_false]
    rw [rget_append]
    cases hk' : Record.rget r k' with
    | some w => rfl
    | none => simp [Record.rget, Ne.symm h]

/-- C5 counterexample: a well-formed JSON object file with no
`model_id` field produces a collected record with no `model_id` field
at all — the Collector defaults `date` but never `model_id`. -/
theorem collect_records_no_model_id_counterexample :
    collect_records [("a.json", some (.obj []))] "20260101-000000"
        = [[("date", Value.str "20260101-000000"),
            ("source_file", Value.str "a.json")]] ∧
      Record.rget
        [("date", Value.str "20260101-000000"),
          ("source_file", Value.str "a.json")] "model_id" = none := by
  constructor
  · rfl
  · rfl

/-- C5 amended: every record the Collector yields carries a `date`
field (the source JSON's value when the key is present, the run's
timestamp otherwise) and a `source_file` field (always the file's
basename); `model_id`, however, is passed through untouched and is
absent exactly when the source JSON lacks it. -/
theorem normalize_record_fields (data : Record) (now name : String) :
    Record.rget (normalize_record data now name) "date"
        = some ((Record.rget data "date").getD (.str now)) ∧
      Record.rget (normalize_record data now name) "source_file"
        = some (.str name) ∧
      Record.rget (normalize_record data now name) "model_id"
        = Record.rget data "model_id" := by
  unfold normalize_record
  refine ⟨?_, ?_, ?_⟩
  · rw [Record.rget_rset_ne _ _ (by decide)]
    exact rget_setdefault_self data "date" (.str now)
  · exact Record.rget_rset_self _ _ _
  · rw [Record.rget_rset_ne _ _ (by decide)]
    exact rget_setdefault_ne data (.str now) (by decide)

/-- `ws.append(list(columns))`: the header row, column names verbatim. -/
def headerRow (columns : List String) : List Value := columns.map Value.str

/-- Source: the row loop of `_write_sheet`: one row per record in
iteration order, one cell per column — `record.get(col)` (`None` when
the field is absent), values under a declared numeric column going
through `_to_float_if_numeric`.  The raw sheet passes no numeric
columns. -/
def sheet_data_rows (columns : List String) (numeric_columns : List String)
    (rows : List Record) : List (List Value) :=
  rows.map fun record =>
    columns.map fun col =>
      if numeric_columns.contains col then
        to_float_if_numeric (Record.pget record col)
      else Record.pget record col

/-- The cell-value mutation of `_format_benchmark_columns`: a string
cell that parses as a float is replaced by that float; every other
cell value is untouched (number formats and column widths are
display-only and not modelled). -/
def format_benchmark_cell (v : Value) : Value :=
  match v with
  | .str s =>
    match pyFloatOfString s with
    | some f => .float f
    | none => .str s
  | v => v

/-- Source: `_format_benchmark_columns(ws, columns, num_data_rows)`,
restricted to its effect on cell values: every data-row cell under a
`NUMERIC_FORMAT_COLUMNS` column is re-coerced when it is a string. -/
def format_benchmark_pass (columns : List String)
    (rows : List (List Value)) : List (List Value) :=
  rows.map fun row =>
    (columns.zip row).map fun cv =>
      if NUMERIC_FORMAT_COLUMNS.contains cv.1 then format_benchmark_cell cv.2
      else cv.2

/-- The schema walk of `_build_raw_columns`: move each summary column
that occurs in the key set to the front (discarding it from the set),
returning the front part and the remaining keys. -/
def raw_cols_front : List String → List String → List String × List String
  | [], keys => ([], keys)
  | c :: cs, keys =>
    if keys.contains c then
      let p := raw_cols_front cs (keys.erase c)
      (c :: p.1, p.2)
    else raw_cols_front cs keys

/-- Source: `_build_raw_columns(records, summary_columns)`: the union
of all record keys, with the summary schema's members first in schema
order and the remaining keys sorted; Python's `sorted` over the key
set is modelled by sorting the deduplicated key list. -/
def build_raw_columns (records : List Record)
    (summary_columns : List String) : List String :=
  let keys := (records.flatMap fun r => r.map Prod.fst).dedup
  let p := raw_cols_front summary_columns keys
  p.1 ++ p.2.insertionSort (fun a b => pyStrLe a b = true)

/-- What `generate_excel_report` writes, as far as sheet content goes:
the summary sheet's cell values, the highlight instructions, and the
raw sheet (`none` when it is omitted). -/
structure Report : Type where
  summary : List (List Value)
  highlights : List (ℕ × ℕ)
  raw : Option (List (List Value))
deriving DecidableEq

instance : DecidableRel (fun a b : String => pyStrLe a b = true) :=
  fun a b => by infer_instance

/-- Source: `generate_excel_report(input_dir, output_file, commit_sha,
build_id, build_url)`, as a function of the loaded summary schema, the
sorted directory listing with per-file parse outcomes, the run
timestamp used to default missing dates, and the metadata triple:
collect, sort, stamp metadata, write the summary sheet (with numeric
coercion and the formatting re-pass), record the highlight
instructions, and write the raw sheet only when records exist.  Saving
the workbook file is I/O and not modelled. -/
def generate_excel_report (summary_columns : List String)
    (files : List (String × Option JsonDoc)) (now : String)
    (commit_sha build_id build_url : Option String) : Report :=
  let records := collect_records files now
  let sorted_records := sort_records_for_summary records
  let stamped := apply_build_metadata_to_latest_only sorted_records
    commit_sha build_id build_url
  { summary := headerRow summary_columns ::
      format_benchmark_pass summary_columns
        (sheet_data_rows summary_columns NUMERIC_FORMAT_COLUMNS stamped),
    highlights := apply_benchmark_change_highlight summary_columns stamped,
    raw :=
      if stamped.isEmpty then none
      else
        some (headerRow (build_raw_columns stamped summary_columns) ::
          sheet_data_rows (build_raw_columns stamped summary_columns) []
            stamped) }

/-- C9: whenever a run collects zero records (empty listing, missing
directory, or all files skipped), the report has a summary sheet with
only the header row, no highlight instruction, and no raw sheet; the
pipeline is a total function, so no exception is raised. -/
theorem generate_excel_report_no_records (summary_columns : List String)
    (files : List (String × Option JsonDoc)) (now : String)
    (c bi bu : Option String)
    (h : collect_records files now = []) :
    (generate_excel_report summary_columns files now c bi bu).summary
        = [headerRow summary_columns] ∧
      (generate_excel_report summary_columns files now c bi bu).raw
        = none ∧
      (generate_excel_report summary_columns files now c bi bu).highlights
        = [] := by
  have hstamped : apply_build_metadata_to_latest_only
      (sort_records_for_summary (collect_records files now)) c bi bu = [] := by
    rw [h]
    rfl
  simp only [generate_excel_report]
  rw [hstamped]
  exact ⟨rfl, rfl, rfl⟩

/-- C9 witness: the empty directory listing. -/
theorem generate_excel_report_no_records_witness :
    (generate_excel_report ["date", "model_id"] [] "20260101-000000"
          none none none).summary
        = [headerRow ["date", "model_id"]] ∧
      (generate_excel_report ["date", "model_id"] [] "20260101-000000"
          none none none).raw = none ∧
      (generate_excel_report ["date", "model_id"] [] "20260101-000000"
          none none none).highlights = [] :=
  generate_excel_report_no_records ["date", "model_id"] [] "20260101-000000"
    none none none rfl

/-- C8: a file whose load fails or whose JSON root is not an object
yields no record, and the report over a listing containing that file —
anywhere in it — equals the report with the file absent: the file
contributes a row to neither sheet and the run completes. -/
theorem bad_file_contributes_nothing (summary_columns : List String)
    (pre post : List (String × Option JsonDoc)) (name : String)
    (doc : Option JsonDoc) (now : String) (c bi bu : Option String)
    (hbad : ∀ fields, doc ≠ some (.obj fields)) :
    load_json_file doc = none ∧
      generate_excel_report summary_columns (pre ++ (name, doc) :: post)
          now c bi bu
        = generate_excel_report summary_columns (pre ++ post) now c bi bu := by
  have hload : load_json_file doc = none := by
    cases doc with
    | none => rfl
    | some d =>
      cases d with
      | obj fields => exact absurd rfl (hbad fields)
      | arr elems => rfl
      | scalar v => rfl
  refine ⟨hload, ?_⟩
  have hc : collect_records (pre ++ (name, doc) :: post) now
      = collect_records (pre ++ post) now := by
    unfold collect_records
    rw [List.filterMap_append, List.filterMap_append, List.filterMap_cons]
    simp [hload]
  simp only [generate_excel_report]
  rw [hc]

/-- C8 witness: Scenario C — a file whose JSON root is a list. -/
theorem bad_file_contributes_nothing_witness :
    load_json_file (some (.arr [])) = none ∧
      generate_excel_report ["date"]
          ([] ++ ("bad.json", some (.arr [])) :: [])
          "20260101-000000" none none none
        = generate_excel_report ["date"] ([] ++ []) "20260101-000000"
          none none none :=
  bad_file_contributes_nothing ["date"] [] [] "bad.json" (some (.arr []))
    "20260101-000000" none none none
    (fun fields h => JsonDoc.noConfusion (Option.some.inj h))

/-- C7 counterexample: one well-formed input file with no `date` field,
read on two runs with different invocation timestamps: the collected
record's defaulted `date` is the run timestamp, so the two runs
produce different summary (and raw) rows even though the input files
and metadata are unchanged. -/
theorem generate_excel_report_timestamp_counterexample :
    generate_excel_report ["date"] [("a.json", some (.obj []))]
        "20260101-000000" none none none
      ≠ generate_excel_report ["date"] [("a.json", some (.obj []))]
        "20260102-000000" none none none := by
  decide

theorem collect_records_now_irrelevant :
    ∀ (files : List (String × Option JsonDoc)) (now₁ now₂ : String),
      (∀ nd ∈ files, ∀ data, load_json_file nd.2 = some data →
        (Record.rget data "date").isSome = true) →
      collect_records files now₁ = collect_records files now₂ := by
  intro files
  induction files with
  | nil =>
    intro _ _ _
    rfl
  | cons nd rest ih =>
    intro now₁ now₂ h
    have hrest := ih now₁ now₂
      fun nd' h' data hl => h nd' (List.mem_cons_of_mem _ h') data hl
    unfold collect_records
    rw [List.filterMap_cons, List.filterMap_cons]
    cases hl : load_json_file nd.2 with
    | none => exact hrest
    | some data =>
      have hdate := h nd (List.mem_cons_self _ _) data hl
      have hnorm : normalize_record data now₁ nd.1
          = normalize_record data now₂ nd.1 := by
        unfold normalize_record
        rw [Record.rget_setdefault_present data "date" _ hdate,
          Record.rget_setdefault_present data "date" _ hdate]
      simp only [Option.map_some']
      rw [hnorm]
      have hrest' : List.filterMap
          (fun nd => (load_json_file nd.2).map
            fun data => normalize_record data now₁ nd.1) rest
          = List.filterMap
          (fun nd => (load_json_file nd.2).map
            fun data => normalize_record data now₂ nd.1) rest := hrest
      rw [hrest']

/-- C7 amended: the report's rows and highlight decisions are a
deterministic function of the input files and the metadata triple,
provided every successfully loaded record carries a `date` field; a
record missing `date` is stamped with the invocation timestamp, which
can differ between two otherwise identical runs (see the
counterexample). -/
theorem generate_excel_report_deterministic (summary_columns : List String)
    (files : List (String × Option JsonDoc)) (now₁ now₂ : String)
    (c bi bu : Option String)
    (h : ∀ nd ∈ files, ∀ data, load_json_file nd.2 = some data →
      (Record.rget data "date").isSome = true) :
    generate_excel_report summary_columns files now₁ c bi bu
      = generate_excel_report summary_columns files now₂ c bi bu := by
  have hc := collect_records_now_irrelevant files now₁ now₂ h
  simp only [generate_excel_report]
  rw [hc]

/-- C7 witness: a one-file listing whose record carries a `date`,
reported identically under two different run timestamps. -/
theorem generate_excel_report_deterministic_witness :
    generate_excel_report ["date"]
        [("a.json", some (.obj [("date", Value.str "20260101")]))]
        "20270101-000000" none none none
      = generate_excel_report ["date"]
        [("a.json", some (.obj [("date", Value.str "20260101")]))]
        "20270202-000000" none none none :=
  generate_excel_report_deterministic ["date"]
    [("a.json", some (.obj [("date", Value.str "20260101")]))]
    "20270101-000000" "20270202-000000" none none none
    (by
      intro nd hnd data hl
      simp only [List.mem_singleton] at hnd
      subst hnd
      have hdata : data = [("date", Value.str "20260101")] :=
        (Option.some_inj.1 hl).symm
      rw [hdata]
      rfl)
